import Mathlib

/-!
Shallow embedding of `src/api_server.py` (goose-gdrive-classifier-api).

The repository exposes three FastAPI endpoints (`/documents`, `/status`,
`/report`) over a Google Drive collaborator, plus one pure function with
independent logic, `_generate_markdown_report`.  This file embeds:

* the document-record data model (a record as returned by the Drive search
  with `fields="files(id, name, properties)"`: optional `id`, `name`, and a
  free-form string-to-string `properties` bag);
* the Python primitives the code relies on (`int(str)` parsing, `str.split`,
  `"\n".join`, `json.dumps(..., indent=2)`);
* the aggregation loop and markdown rendering of `_generate_markdown_report`,
  with the possibility of a `ValueError` from `int()` modelled as `Option`;
* the three endpoint handlers as functions of the credential state and the
  collaborator's search outcome.
-/

namespace GDriveClassifier

/-- A document record as consumed by `_generate_markdown_report` and
serialized by the `/report` endpoint: a dict with optional string fields
`id` and `name` and an optional `properties` dict of string key/value
pairs (the Drive API omits absent fields).  The `properties` bag is kept
as an association list in response order; Python dict lookup corresponds
to first match. -/
structure DocRecord where
  id : Option String
  name : Option String
  properties : Option (List (String × String))
deriving DecidableEq

/-- Python `props.get(key)` on the properties dict: first matching key. -/
def dictGet (props : List (String × String)) (key : String) : Option String :=
  (props.find? (fun p => p.1 == key)).map (fun p => p.2)

/-! ### Python `int(str)` parsing

`int(props.get('overall_confidence', 0))` in the source either parses the
string or raises `ValueError`; we model it as `Option Int`.  Python strips
the Unicode whitespace characters below from both ends, then accepts an
optional single sign followed by digits, where a single underscore may
stand between two digits.  Restriction of the model: only the ASCII digits
`0`-`9` are modelled as digits (CPython additionally accepts Unicode
category-Nd digits); no claim exercises non-ASCII digits. -/

/-- Code points stripped from both ends by Python `int(str)`. -/
def pyIntSpaceCodes : List Nat :=
  [0x9, 0xa, 0xb, 0xc, 0xd, 0x20, 0x85, 0xa0, 0x1680,
   0x2000, 0x2001, 0x2002, 0x2003, 0x2004, 0x2005, 0x2006, 0x2007,
   0x2008, 0x2009, 0x200a, 0x2028, 0x2029, 0x202f, 0x205f, 0x3000]

def isPyIntSpace (c : Char) : Bool :=
  pyIntSpaceCodes.contains c.toNat

/-- Strip int-parsing whitespace from both ends. -/
def stripSpaces (l : List Char) : List Char :=
  ((l.dropWhile isPyIntSpace).reverse.dropWhile isPyIntSpace).reverse

/-- Digits after the first one: a single underscore may appear between two
digits; anything else fails (as `int()` raises `ValueError`). -/
def pyDigitsAux : List Char → Nat → Option Nat
  | [], acc => some acc
  | c :: cs, acc =>
    if c.isDigit then pyDigitsAux cs (acc * 10 + (c.toNat - 48))
    else if c = '_' then
      match cs with
      | c2 :: cs2 =>
        if c2.isDigit then pyDigitsAux cs2 (acc * 10 + (c2.toNat - 48)) else none
      | [] => none
    else none

/-- A nonempty digit string beginning with a digit. -/
def pyDigits : List Char → Option Nat
  | [] => none
  | c :: cs => if c.isDigit then pyDigitsAux cs (c.toNat - 48) else none

/-- Python `int(s)` on a `str`: `some` the parsed integer, `none` when
`ValueError` is raised. -/
def pyInt (s : String) : Option Int :=
  match stripSpaces s.data with
  | '+' :: rest => (pyDigits rest).map (fun n => (n : Int))
  | '-' :: rest => (pyDigits rest).map (fun n => -(n : Int))
  | rest => (pyDigits rest).map (fun n => (n : Int))

/-! ### The aggregation loop of `_generate_markdown_report` -/

/-- The mutable statistics of the loop: the `categories` dict (insertion
ordered, as a Python dict) and the three confidence buckets. -/
structure Tally where
  cats : List (String × Nat)
  high : Nat
  medium : Nat
  low : Nat
deriving DecidableEq

def emptyTally : Tally := ⟨[], 0, 0, 0⟩

/-- `categories[cat] = categories.get(cat, 0) + 1` on an insertion-ordered
dict: increment in place, or append a new key at the end. -/
def bump : List (String × Nat) → String → List (String × Nat)
  | [], k => [(k, 1)]
  | (k', v) :: rest, k =>
    if k' = k then (k', v + 1) :: rest else (k', v) :: bump rest k

/-- `m.get(k, 0)` on the category dict (first — and, keys being unique,
only — matching entry). -/
def countOf : List (String × Nat) → String → Nat
  | [], _ => 0
  | (k0, v) :: m, k => if k0 = k then v else countOf m k

/-- `file.get('properties', {}).get('categories', '')`. -/
def recCategoriesRaw (r : DocRecord) : String :=
  (dictGet (r.properties.getD []) "categories").getD ""

/-- Python `s.split(sep)` for a one-character separator: splits at every
occurrence, keeping empty pieces (`''.split(',') == ['']`). -/
def pySplitAux (sep : Char) : List Char → List Char → List String
  | [], acc => [⟨acc.reverse⟩]
  | c :: cs, acc =>
    if c = sep then String.mk acc.reverse :: pySplitAux sep cs []
    else pySplitAux sep cs (c :: acc)

def pySplit (s : String) (sep : Char) : List String :=
  pySplitAux sep s.data []

/-- The non-empty comma-split category tokens a record contributes
(`for cat in props.get('categories', '').split(','): if cat: ...`). -/
def catTokens (r : DocRecord) : List String :=
  (pySplit (recCategoriesRaw r) ',').filter (fun t => t ≠ "")

/-- `int(props.get('overall_confidence', 0))`: the dict default is the
integer `0`; a present value is a string fed to `int()`, which may raise. -/
def recConfidence (r : DocRecord) : Option Int :=
  match dictGet (r.properties.getD []) "overall_confidence" with
  | none => some 0
  | some s => pyInt s

/-- One iteration of the `for file in files` loop: tally the category
tokens, then parse the confidence and increment exactly one bucket;
`none` when `int()` raises. -/
def tallyStep (t : Tally) (r : DocRecord) : Option Tally :=
  let cmap := (pySplit (recCategoriesRaw r) ',').foldl
      (fun m c => if c ≠ "" then bump m c else m) t.cats
  match recConfidence r with
  | none => none
  | some c =>
    if 90 ≤ c then some { t with cats := cmap, high := t.high + 1 }
    else if 70 ≤ c then some { t with cats := cmap, medium := t.medium + 1 }
    else some { t with cats := cmap, low := t.low + 1 }

/-- The whole statistics loop of `_generate_markdown_report`; `none` when
some record's `overall_confidence` makes `int()` raise. -/
def aggregate (files : List DocRecord) : Option Tally :=
  files.foldlM tallyStep emptyTally

/-! ### Markdown rendering -/

/-- Python `sep.join(parts)`. -/
def joinSep (sep : String) : List String → String
  | [] => ""
  | [a] => a
  | a :: b :: rest => a ++ sep ++ joinSep sep (b :: rest)

/-- The `report_parts` assembly of `_generate_markdown_report`, given the
loop's result; `now` stands for `datetime.now().isoformat()`. -/
def renderMarkdown (now : String) (files : List DocRecord) (t : Tally) : String :=
  joinSep "\n"
    (["# Document Classification Report",
      "\nGenerated: " ++ now,
      "\nTotal Documents: " ++ toString files.length,
      "\n## Summary",
      "\n### Categories"]
     ++ t.cats.map (fun p => "- " ++ p.1 ++ ": " ++ toString p.2)
     ++ ["\n### Confidence Levels",
         "- HIGH: " ++ toString t.high,
         "- MEDIUM: " ++ toString t.medium,
         "- LOW: " ++ toString t.low])

/-- `_generate_markdown_report(files)`: `none` when the loop raises. -/
def generateMarkdownReport (now : String) (files : List DocRecord) :
    Option String :=
  (aggregate files).map (renderMarkdown now files)

/-! ### `json.dumps(files, indent=2)`

The structured report is the record list serialized by Python's
`json.dumps` with `indent=2` and default options (`ensure_ascii=True`):
each string character outside printable ASCII is escaped as `\uXXXX`
(lowercase hex, surrogate pairs for astral code points), `"` and `\` and
the five short control escapes use their two-character forms.  The
serializer is specialized from `json.dumps`'s generic recursion to the
record shape produced by the `/report` search (`id`, `name`, `properties`
fields, present ones in that order). -/

def hexDigit (n : Nat) : Char :=
  if n < 10 then Char.ofNat (48 + n) else Char.ofNat (87 + n)

/-- Four lowercase hex digits of `n % 0x10000`. -/
def hex4 (n : Nat) : List Char :=
  [hexDigit (n / 4096 % 16), hexDigit (n / 256 % 16),
   hexDigit (n / 16 % 16), hexDigit (n % 16)]

/-- The JSON escape of one character, as emitted by `json.dumps` with
`ensure_ascii=True`. -/
def escChar (c : Char) : List Char :=
  if c = '"' then ['\\', '"']
  else if c = '\\' then ['\\', '\\']
  else if c = '\x08' then ['\\', 'b']
  else if c = '\x09' then ['\\', 't']
  else if c = '\x0a' then ['\\', 'n']
  else if c = '\x0c' then ['\\', 'f']
  else if c = '\x0d' then ['\\', 'r']
  else if c.toNat < 0x20 ∨ 0x7e < c.toNat then
    if c.toNat < 0x10000 then '\\' :: 'u' :: hex4 c.toNat
    else
      ('\\' :: 'u' :: hex4 (0xd800 + (c.toNat - 0x10000) / 0x400)) ++
      ('\\' :: 'u' :: hex4 (0xdc00 + (c.toNat - 0x10000) % 0x400))
  else [c]

/-- A JSON string literal: quote, escaped characters, quote. -/
def encStr (s : String) : List Char :=
  '"' :: (s.data.flatMap escChar ++ ['"'])

def spaces (n : Nat) : List Char :=
  List.replicate n ' '

/-- `sep.join(parts)` at the character-list level (as the `indent=2`
serializer joins its item lines with `",\n"`). -/
def sepConcat (sep : List Char) : List (List Char) → List Char
  | [] => []
  | [a] => a
  | a :: b :: rest => a ++ sep ++ sepConcat sep (b :: rest)

/-- One `"key": "value"` line of the `properties` object (depth 2, keys
indented 6 spaces). -/
def encPropLine (p : String × String) : List Char :=
  spaces 6 ++ encStr p.1 ++ ([':', ' '] ++ encStr p.2)

/-- The `properties` object at nesting depth 2. -/
def encProps (ps : List (String × String)) : List Char :=
  match ps.map encPropLine with
  | [] => ['\x7b', '\x7d']
  | lines =>
    ['\x7b', '\n'] ++ sepConcat [',', '\n'] lines ++
      ('\n' :: spaces 4) ++ ['\x7d']

/-- A dict field value is either a string (`id`, `name`) or the nested
`properties` object. -/
inductive FieldVal where
  | str (s : String)
  | props (ps : List (String × String))
deriving DecidableEq

def encFieldVal : FieldVal → List Char
  | .str s => encStr s
  | .props ps => encProps ps

/-- The key/value pairs of a record's dict, present fields only. -/
def fieldsOf (r : DocRecord) : List (String × FieldVal) :=
  (r.id.toList.map (fun v => ("id", FieldVal.str v))) ++
  (r.name.toList.map (fun v => ("name", FieldVal.str v))) ++
  (r.properties.toList.map (fun ps => ("properties", FieldVal.props ps)))

/-- One record field line (depth 1, keys indented 4 spaces). -/
def encRecLine (f : String × FieldVal) : List Char :=
  spaces 4 ++ encStr f.1 ++ ([':', ' '] ++ encFieldVal f.2)

/-- A record object at nesting depth 1. -/
def encRecord (r : DocRecord) : List Char :=
  match (fieldsOf r).map encRecLine with
  | [] => ['\x7b', '\x7d']
  | lines =>
    ['\x7b', '\n'] ++ sepConcat [',', '\n'] lines ++
      ('\n' :: spaces 2) ++ ['\x7d']

/-- One top-level array item line (indented 2 spaces). -/
def encItemLine (r : DocRecord) : List Char :=
  spaces 2 ++ encRecord r

/-- `json.dumps(files, indent=2)`. -/
def jsonDumps (files : List DocRecord) : String :=
  match files.map encItemLine with
  | [] => ⟨['[', ']']⟩
  | items =>
    ⟨['[', '\n'] ++ sepConcat [',', '\n'] items ++ ['\n', ']']⟩

/-! ### Deserializing the structured report

`json.loads` applied to the report content only ever sees strings produced
by `jsonDumps`, so the parser below handles exactly that grammar (it is a
left inverse of the serializer, which is what the round-trip property
needs). -/

/-- Consume an expected literal prefix. -/
def eat : List Char → List Char → Option (List Char)
  | [], l => some l
  | p :: ps, c :: cs => if c = p then eat ps cs else none
  | _ :: _, [] => none

/-- Value of one lowercase hex digit. -/
def hexVal (c : Char) : Option Nat :=
  if '0' ≤ c ∧ c ≤ '9' then some (c.toNat - 48)
  else if 'a' ≤ c ∧ c ≤ 'f' then some (c.toNat - 87)
  else none

/-- Four hex digits. -/
def parseHex4 : List Char → Option (Nat × List Char)
  | a :: b :: c :: d :: rest => do
    let va ← hexVal a
    let vb ← hexVal b
    let vc ← hexVal c
    let vd ← hexVal d
    pure (va * 4096 + vb * 256 + vc * 16 + vd, rest)
  | _ => none

/-- After a `\uXXXX` high surrogate `n`: expect a `\uXXXX` low surrogate
and combine the pair into one astral character. -/
def decodeLowSurrogate (n : Nat) : List Char → Option (Char × List Char)
  | '\\' :: 'u' :: cs3 =>
    match parseHex4 cs3 with
    | some (m, cs4) =>
      if 0xdbff < m ∧ m < 0xe000 then
        some (Char.ofNat (0x10000 + (n - 0xd800) * 0x400 + (m - 0xdc00)), cs4)
      else none
    | none => none
  | _ => none

/-- Decode the character after a backslash. -/
def decodeEsc : List Char → Option (Char × List Char)
  | [] => none
  | e :: cs =>
    if e = '"' then some ('"', cs)
    else if e = '\\' then some ('\\', cs)
    else if e = 'b' then some ('\x08', cs)
    else if e = 't' then some ('\x09', cs)
    else if e = 'n' then some ('\x0a', cs)
    else if e = 'f' then some ('\x0c', cs)
    else if e = 'r' then some ('\x0d', cs)
    else if e = 'u' then
      match parseHex4 cs with
      | none => none
      | some (n, cs2) =>
        if n < 0xd800 then some (Char.ofNat n, cs2)
        else if 0xdfff < n then some (Char.ofNat n, cs2)
        else if n < 0xdc00 then decodeLowSurrogate n cs2
        else none
    else none

/-- Decode one (possibly escaped) string-body character; fails at the
closing quote. -/
def decodeOne : List Char → Option (Char × List Char)
  | [] => none
  | c :: cs =>
    if c = '"' then none
    else if c = '\\' then decodeEsc cs
    else some (c, cs)

/-- The closing quote of a string literal. -/
def expectQuote : List Char → Option (List Char × List Char)
  | '"' :: rest => some ([], rest)
  | _ => none

/-- String body up to and through the closing quote (fuel bounds the
number of decoded characters). -/
def parseStrBody : Nat → List Char → Option (List Char × List Char)
  | 0, l => expectQuote l
  | fuel + 1, l =>
    match decodeOne l with
    | some (c, rest) =>
      match parseStrBody fuel rest with
      | some (cs, rem) => some (c :: cs, rem)
      | none => none
    | none => expectQuote l

/-- A quoted JSON string literal. -/
def parseQString (l : List Char) : Option (String × List Char) :=
  match l with
  | '"' :: rest =>
    match parseStrBody rest.length rest with
    | some (cs, rem) => some (⟨cs⟩, rem)
    | none => none
  | _ => none

/-- A nonempty newline-separated item list as laid out by `indent=2`:
items separated by `",\n"`, closed by `"\n" ++ endMark`. -/
def parseSepList {α : Type} (item : List Char → Option (α × List Char))
    (endMark : List Char) : Nat → List Char → Option (List α × List Char)
  | 0, _ => none
  | fuel + 1, l =>
    match item l with
    | none => none
    | some (a, l1) =>
      match l1 with
      | ',' :: '\n' :: l2 =>
        match parseSepList item endMark fuel l2 with
        | some (more, rem) => some (a :: more, rem)
        | none => none
      | '\n' :: l2 =>
        match eat endMark l2 with
        | some rem => some ([a], rem)
        | none => none
      | _ => none

/-- One `properties` key/value line (indented 6 spaces). -/
def parsePropPair (l : List Char) : Option ((String × String) × List Char) := do
  let l1 ← eat (spaces 6) l
  let (k, l2) ← parseQString l1
  let l3 ← eat [':', ' '] l2
  let (v, l4) ← parseQString l3
  pure ((k, v), l4)

/-- The `properties` object. -/
def parseProps (l : List Char) : Option (List (String × String) × List Char) :=
  match l with
  | '\x7b' :: '\x7d' :: rest => some ([], rest)
  | '\x7b' :: '\n' :: rest =>
    parseSepList parsePropPair (spaces 4 ++ ['\x7d']) rest.length rest
  | _ => none

/-- A record field value: nested object or string. -/
def parseFieldVal (l : List Char) : Option (FieldVal × List Char) :=
  match l with
  | [] => none
  | c :: cs =>
    if c = '\x7b' then
      (parseProps (c :: cs)).map (fun p => (FieldVal.props p.1, p.2))
    else (parseQString (c :: cs)).map (fun p => (FieldVal.str p.1, p.2))

/-- One record field line (indented 4 spaces). -/
def parseRecLine (l : List Char) : Option ((String × FieldVal) × List Char) := do
  let l1 ← eat (spaces 4) l
  let (k, l2) ← parseQString l1
  let l3 ← eat [':', ' '] l2
  let (v, l4) ← parseFieldVal l3
  pure ((k, v), l4)

/-- Rebuild a `DocRecord` from its parsed field lines (accepting exactly
the field sets and order the serializer emits). -/
def takeStrField (key : String) (fs : List (String × FieldVal)) :
    Option String × List (String × FieldVal) :=
  match fs with
  | (k, FieldVal.str v) :: rest => if k = key then (some v, rest) else (none, fs)
  | _ => (none, fs)

def recOfFields (fs : List (String × FieldVal)) : Option DocRecord :=
  let p1 := takeStrField "id" fs
  let p2 := takeStrField "name" p1.2
  match p2.2 with
  | [] => some ⟨p1.1, p2.1, none⟩
  | [("properties", FieldVal.props ps)] => some ⟨p1.1, p2.1, some ps⟩
  | _ => none

/-- A record object. -/
def parseRecord (l : List Char) : Option (DocRecord × List Char) :=
  match l with
  | '\x7b' :: '\x7d' :: rest => some (⟨none, none, none⟩, rest)
  | '\x7b' :: '\n' :: rest =>
    match parseSepList parseRecLine (spaces 2 ++ ['\x7d']) rest.length rest with
    | some (fs, rem) =>
      match recOfFields fs with
      | some r => some ((r, rem))
      | none => none
    | none => none
  | _ => none

/-- One top-level array item (indented 2 spaces). -/
def parseItem (l : List Char) : Option (DocRecord × List Char) := do
  let l1 ← eat (spaces 2) l
  parseRecord l1

/-- `json.loads` on the structured report content. -/
def jsonLoads (s : String) : Option (List DocRecord) :=
  match s.data with
  | ['[', ']'] => some []
  | '[' :: '\n' :: rest =>
    match parseSepList parseItem [']'] rest.length rest with
    | some (rs, []) => some rs
    | _ => none
  | _ => none

/-! ### Endpoint handlers

The three route handlers are embedded as functions of (a) the state of the
credential material consulted by `get_drive_service` and (b) the outcome of
the collaborator's `files().list().execute()` call(s), which is an input to
the model (`Except String` carries `str(e)` of a raised exception).  The
query strings built by the handlers are only passed to the external
collaborator and do not affect any property below, so their construction is
not modelled. -/

/-- State of the token file read by `get_drive_service`:
`missing` — `os.path.exists` is false; `unreadable` — the file exists but
loading/parsing the credentials raises; `ready` — a service is built. -/
inductive CredState where
  | missing
  | unreadable
  | ready
deriving DecidableEq

/-- Outcome of a request: a successful response body, an `HTTPException`
with status and detail, or an exception escaping the handler uncaught
(FastAPI then produces a generic internal server error). -/
inductive Outcome (α : Type) where
  | ok (body : α)
  | httpError (status : Nat) (detail : String)
  | unhandled
deriving DecidableEq

/-- What a `files().list().execute()` response contributes: the `files`
array and the optional `nextPageToken`. -/
structure DriveListResponse where
  files : List DocRecord
  nextPageToken : Option String
deriving DecidableEq

/-- Response model of `/documents`. -/
structure DocumentList where
  documents : List DocRecord
  next_page_token : Option String
  total_count : Nat
deriving DecidableEq

/-- Response model of `/status` (`pending_count` is a Python int and may
be negative). -/
structure StatusResponse where
  total_documents : Nat
  classified_count : Nat
  pending_count : Int
  last_update : String
deriving DecidableEq

/-- Response model of `/report`. -/
structure ReportResponse where
  report_content : String
  generated_at : String
  format : String
deriving DecidableEq

/-- The failure produced by `get_drive_service` for each bad credential
state: a missing token file raises `HTTPException(500, "Google OAuth token
not found")` before any collaborator call; an unreadable one raises an
ordinary exception that no handler catches (it is raised before the
handler's `try` block). -/
def credFailure (α : Type) : CredState → Option (Outcome α)
  | .missing => some (.httpError 500 "Google OAuth token not found")
  | .unreadable => some .unhandled
  | .ready => none

/-- `GET /documents`: build the service, then one search; any exception in
the `try` block becomes `HTTPException(500, str(e))`. -/
def listDocuments (cred : CredState)
    (searchResult : Except String DriveListResponse) : Outcome DocumentList :=
  match credFailure DocumentList cred with
  | some f => f
  | none =>
    match searchResult with
    | .error e => .httpError 500 e
    | .ok resp => .ok ⟨resp.files, resp.nextPageToken, resp.files.length⟩

/-- `GET /status`: build the service, then two searches (total, then
classified); the second is only reached when the first succeeds. -/
def getStatus (cred : CredState) (now : String)
    (totalResult classifiedResult : Except String DriveListResponse) :
    Outcome StatusResponse :=
  match credFailure StatusResponse cred with
  | some f => f
  | none =>
    match totalResult with
    | .error e => .httpError 500 e
    | .ok tr =>
      match classifiedResult with
      | .error e => .httpError 500 e
      | .ok cr =>
        .ok ⟨tr.files.length, cr.files.length,
             (tr.files.length : Int) - (cr.files.length : Int), now⟩

/-- The `format` query parameter of `/report` (FastAPI rejects other
values via `enum=["markdown", "json"]`). -/
inductive ReportFormat where
  | markdown
  | json
deriving DecidableEq

def ReportFormat.tag : ReportFormat → String
  | .markdown => "markdown"
  | .json => "json"

/-- Detail of the `HTTPException(500, str(e))` produced when `int()` raises
inside `_generate_markdown_report`: the CPython `ValueError` text with the
offending literal (repr escaping of exotic characters is not modelled; no
theorem relies on this string). -/
def intErrorDetail (files : List DocRecord) : String :=
  "invalid literal for int() with base 10: \x27" ++
    ((files.findSome? (fun r =>
        match dictGet (r.properties.getD []) "overall_confidence" with
        | some s => if (pyInt s).isNone then some s else none
        | none => none)).getD "") ++ "\x27"

/-- `GET /report`: build the service, one search, then render the report in
the requested format; any exception in the `try` block (including a
`ValueError` from the markdown aggregation) becomes
`HTTPException(500, str(e))`. -/
def getReport (cred : CredState) (now : String) (fmt : ReportFormat)
    (searchResult : Except String DriveListResponse) : Outcome ReportResponse :=
  match credFailure ReportResponse cred with
  | some f => f
  | none =>
    match searchResult with
    | .error e => .httpError 500 e
    | .ok resp =>
      match fmt with
      | .markdown =>
        match generateMarkdownReport now resp.files with
        | none => .httpError 500 (intErrorDetail resp.files)
        | some md => .ok ⟨md, now, ReportFormat.markdown.tag⟩
      | .json => .ok ⟨jsonDumps resp.files, now, ReportFormat.json.tag⟩

/-! ## Lemmas: serializer/parser round trip -/

theorem eat_append (pat rest : List Char) : eat pat (pat ++ rest) = some rest := by
  induction pat with
  | nil => rfl
  | cons p ps ih => simp [eat, ih]

theorem hexVal_hexDigit : ∀ d, d < 16 → hexVal (hexDigit d) = some d := by decide

theorem parseHex4_hex4 (n : Nat) (h : n < 65536) (rest : List Char) :
    parseHex4 (hex4 n ++ rest) = some (n, rest) := by
  have h1 : n / 4096 % 16 < 16 := Nat.mod_lt _ (by norm_num)
  have h2 : n / 256 % 16 < 16 := Nat.mod_lt _ (by norm_num)
  have h3 : n / 16 % 16 < 16 := Nat.mod_lt _ (by norm_num)
  have h4 : n % 16 < 16 := Nat.mod_lt _ (by norm_num)
  simp [hex4, parseHex4, hexVal_hexDigit _ h1, hexVal_hexDigit _ h2,
        hexVal_hexDigit _ h3, hexVal_hexDigit _ h4]
  omega

theorem charValidNat (c : Char) :
    c.toNat < 0xd800 ∨ (0xdfff < c.toNat ∧ c.toNat < 0x110000) := c.valid

theorem decodeOne_escChar (c : Char) (tail : List Char) :
    decodeOne (escChar c ++ tail) = some (c, tail) := by
  by_cases hq : c = '"'
  · subst hq; rfl
  by_cases hb : c = '\\'
  · subst hb; rfl
  by_cases h08 : c = '\x08'
  · subst h08; rfl
  by_cases h09 : c = '\x09'
  · subst h09; rfl
  by_cases h0a : c = '\x0a'
  · subst h0a; rfl
  by_cases h0c : c = '\x0c'
  · subst h0c; rfl
  by_cases h0d : c = '\x0d'
  · subst h0d; rfl
  by_cases hrange : c.toNat < 0x20 ∨ 0x7e < c.toNat
  · by_cases hbig : c.toNat < 0x10000
    · have hval := charValidNat c
      rw [escChar]
      simp only [hq, hb, h08, h09, h0a, h0c, h0d, hrange, hbig,
        if_true, if_false, if_pos, if_neg, not_false_iff]
      simp only [List.cons_append]
      simp [decodeOne, decodeEsc, parseHex4_hex4 c.toNat hbig tail]
      rcases hval with hlow | ⟨hhi, _⟩
      · simp [hlow, Char.ofNat_toNat]
      · have hns : ¬ (c.toNat < 0xd800) := by omega
        simp [hns, hhi, Char.ofNat_toNat]
    · have hval := charValidNat c
      have hlt : c.toNat < 0x110000 := by
        rcases hval with hlow | ⟨_, h⟩ <;> omega
      have hc1 : ¬ (0xd800 + (c.toNat - 0x10000) / 0x400 < 0xd800) := by omega
      have hc2 : ¬ (0xdfff < 0xd800 + (c.toNat - 0x10000) / 0x400) := by omega
      have hc3 : 0xd800 + (c.toNat - 0x10000) / 0x400 < 0xdc00 := by omega
      have hc4 : 0xdbff < 0xdc00 + (c.toNat - 0x10000) % 0x400 ∧
          0xdc00 + (c.toNat - 0x10000) % 0x400 < 0xe000 := by omega
      have harith :
          0x10000 + (0xd800 + (c.toNat - 0x10000) / 0x400 - 0xd800) * 0x400 +
            (0xdc00 + (c.toNat - 0x10000) % 0x400 - 0xdc00) = c.toNat := by
        omega
      rw [escChar]
      simp only [hq, hb, h08, h09, h0a, h0c, h0d, hrange, hbig,
        if_true, if_false, if_pos, if_neg, not_false_iff]
      simp only [List.cons_append, List.append_assoc]
      simp [decodeOne, decodeEsc,
        parseHex4_hex4 (0xd800 + (c.toNat - 0x10000) / 0x400) (by omega),
        hc1, hc2, hc3]
      rw [decodeLowSurrogate]
      rw [parseHex4_hex4 (0xdc00 + (c.toNat - 0x10000) % 0x400) (by omega) tail]
      simp only [hc4, and_self, if_true, if_pos]
      rw [harith, Char.ofNat_toNat]
  · rw [escChar]
    simp only [hq, hb, h08, h09, h0a, h0c, h0d, hrange,
      if_false, if_neg, not_false_iff]
    simp only [List.cons_append, List.singleton_append]
    simp [decodeOne, hq, hb]

theorem one_le_escChar_length (c : Char) : 1 ≤ (escChar c).length := by
  rw [escChar]
  split_ifs <;> simp

theorem length_le_flatMap_escChar (l : List Char) :
    l.length ≤ (l.flatMap escChar).length := by
  induction l with
  | nil => simp
  | cons c cs ih =>
    have h1 := one_le_escChar_length c
    simp only [List.flatMap_cons, List.length_cons, List.length_append]
    omega

theorem parseStrBody_rt (l : List Char) :
    ∀ (fuel : Nat), l.length ≤ fuel → ∀ (rest : List Char),
      parseStrBody fuel (l.flatMap escChar ++ '"' :: rest) = some (l, rest) := by
  induction l with
  | nil =>
    intro fuel _ rest
    cases fuel <;> simp [parseStrBody, decodeOne, expectQuote]
  | cons c cs ih =>
    intro fuel hf rest
    cases fuel with
    | zero => simp at hf
    | succ f =>
      rw [parseStrBody]
      simp only [List.flatMap_cons, List.append_assoc]
      rw [decodeOne_escChar]
      dsimp only
      rw [ih f (by simp at hf; omega) rest]

theorem parseQString_encStr (s : String) (rest : List Char) :
    parseQString (encStr s ++ rest) = some (s, rest) := by
  have hlen : s.data.length ≤ (s.data.flatMap escChar ++ '"' :: rest).length := by
    have h1 := length_le_flatMap_escChar s.data
    simp only [List.length_append, List.length_cons]
    omega
  simp only [encStr, List.cons_append, List.append_assoc, List.nil_append]
  rw [parseQString]
  rw [parseStrBody_rt s.data _ (by simpa using hlen) rest]

theorem parseSepList_rt {α : Type} (item : List Char → Option (α × List Char))
    (enc : α → List Char)
    (hitem : ∀ a rest, item (enc a ++ rest) = some (a, rest))
    (endMark : List Char) :
    ∀ (l : List α) (fuel : Nat), l ≠ [] → l.length ≤ fuel → ∀ (rest : List Char),
      parseSepList item endMark fuel
        (sepConcat [',', '\n'] (l.map enc) ++ '\n' :: (endMark ++ rest)) =
      some (l, rest) := by
  intro l
  induction l with
  | nil => intro fuel h; exact absurd rfl h
  | cons a l ih =>
    intro fuel _ hf rest
    cases fuel with
    | zero => simp at hf
    | succ f =>
      cases l with
      | nil =>
        rw [parseSepList]
        simp only [List.map_cons, List.map_nil, sepConcat]
        rw [hitem]
        simp [eat_append]
      | cons b l' =>
        rw [parseSepList]
        simp only [List.map_cons, sepConcat, List.append_assoc, List.cons_append]
        rw [hitem]
        simp only [List.nil_append]
        rw [← List.map_cons enc b l']
        rw [ih f (by simp) (by simp at hf ⊢; omega) rest]

theorem length_le_sepConcat {α : Type} (enc : α → List Char)
    (h1 : ∀ a, 1 ≤ (enc a).length) :
    ∀ l : List α, l.length ≤ (sepConcat [',', '\n'] (l.map enc)).length := by
  intro l
  induction l with
  | nil => simp [sepConcat]
  | cons a l ih =>
    cases l with
    | nil => simpa [sepConcat] using h1 a
    | cons b l' =>
      have h2 := h1 a
      simp only [List.map_cons, sepConcat, List.length_append, List.length_cons] at ih ⊢
      omega

theorem eat_colon_space (x : List Char) : eat [':', ' '] (':' :: ' ' :: x) = some x := by
  simp [eat]

theorem parsePropPair_enc (p : String × String) (rest : List Char) :
    parsePropPair (encPropLine p ++ rest) = some (p, rest) := by
  rw [encPropLine]
  simp only [List.append_assoc]
  rw [parsePropPair]
  simp [eat_append, parseQString_encStr, eat_colon_space, Prod.mk.eta]

theorem one_le_encPropLine_length (p : String × String) :
    1 ≤ (encPropLine p).length := by
  simp [encPropLine, spaces]

theorem parseProps_encProps (ps : List (String × String)) (rest : List Char) :
    parseProps (encProps ps ++ rest) = some (ps, rest) := by
  cases ps with
  | nil => rfl
  | cons q qs =>
    rw [encProps]
    simp only [List.map_cons]
    simp only [List.cons_append, List.append_assoc, List.nil_append,
      List.singleton_append]
    rw [parseProps]
    rw [← List.map_cons encPropLine q qs]
    have hb : (q :: qs).length ≤
        (sepConcat [',', '\n'] ((q :: qs).map encPropLine) ++
          '\n' :: (spaces 4 ++ '\x7d' :: rest)).length := by
      have h1 := length_le_sepConcat encPropLine one_le_encPropLine_length (q :: qs)
      simp only [List.length_append]
      omega
    have hrt := parseSepList_rt parsePropPair encPropLine parsePropPair_enc
      (spaces 4 ++ ['\x7d']) (q :: qs) _ (by simp) hb rest
    simpa [List.append_assoc] using hrt

theorem encProps_head (ps : List (String × String)) :
    ∃ t, encProps ps = '\x7b' :: t := by
  cases ps <;> exact ⟨_, rfl⟩

theorem parseFieldVal_enc (v : FieldVal) (rest : List Char) :
    parseFieldVal (encFieldVal v ++ rest) = some (v, rest) := by
  cases v with
  | str s =>
    rw [show encFieldVal (FieldVal.str s) ++ rest =
      '"' :: ((s.data.flatMap escChar ++ ['"']) ++ rest) from rfl]
    rw [parseFieldVal]
    have hq : ¬ (('"' : Char) = '\x7b') := by decide
    rw [if_neg hq]
    rw [show ('"' :: ((s.data.flatMap escChar ++ ['"']) ++ rest) : List Char) =
      encStr s ++ rest from rfl]
    rw [parseQString_encStr]
    rfl
  | props ps =>
    obtain ⟨t, ht⟩ := encProps_head ps
    rw [show encFieldVal (FieldVal.props ps) = encProps ps from rfl, ht,
      List.cons_append, parseFieldVal]
    rw [if_pos rfl]
    rw [← List.cons_append, ← ht, parseProps_encProps]
    rfl

theorem parseRecLine_enc (f : String × FieldVal) (rest : List Char) :
    parseRecLine (encRecLine f ++ rest) = some (f, rest) := by
  rw [encRecLine]
  simp only [List.append_assoc]
  rw [parseRecLine]
  simp [eat_append, parseQString_encStr, eat_colon_space, parseFieldVal_enc,
    Prod.mk.eta]

theorem one_le_encRecLine_length (f : String × FieldVal) :
    1 ≤ (encRecLine f).length := by
  simp [encRecLine, spaces]

theorem fieldsOf_eq_nil (r : DocRecord) (h : fieldsOf r = []) :
    r = ⟨none, none, none⟩ := by
  obtain ⟨i, n, ps⟩ := r
  cases i <;> cases n <;> cases ps <;> simp_all [fieldsOf]

theorem recOfFields_fieldsOf (r : DocRecord) :
    recOfFields (fieldsOf r) = some r := by
  obtain ⟨i, n, ps⟩ := r
  cases i <;> cases n <;> cases ps <;> rfl

theorem parseRecord_encRecord (r : DocRecord) (rest : List Char) :
    parseRecord (encRecord r ++ rest) = some (r, rest) := by
  cases hf : fieldsOf r with
  | nil =>
    have hr : r = ⟨none, none, none⟩ := fieldsOf_eq_nil r hf
    subst hr
    rfl
  | cons f fs =>
    rw [encRecord, hf]
    simp only [List.map_cons]
    simp only [List.cons_append, List.append_assoc, List.nil_append,
      List.singleton_append]
    rw [parseRecord]
    rw [← List.map_cons encRecLine f fs]
    have hb : (f :: fs).length ≤
        (sepConcat [',', '\n'] ((f :: fs).map encRecLine) ++
          '\n' :: (spaces 2 ++ '\x7d' :: rest)).length := by
      have h1 := length_le_sepConcat encRecLine one_le_encRecLine_length (f :: fs)
      simp only [List.length_append]
      omega
    have hrt := parseSepList_rt parseRecLine encRecLine parseRecLine_enc
      (spaces 2 ++ ['\x7d']) (f :: fs) _ (by simp) hb rest
    simp only [List.append_assoc, List.singleton_append] at hrt
    rw [hrt, ← hf]
    simp [recOfFields_fieldsOf]

theorem parseItem_enc (r : DocRecord) (rest : List Char) :
    parseItem (encItemLine r ++ rest) = some (r, rest) := by
  rw [encItemLine]
  simp only [List.append_assoc]
  rw [parseItem]
  simp [eat_append, parseRecord_encRecord]

theorem one_le_encItemLine_length (r : DocRecord) :
    1 ≤ (encItemLine r).length := by
  simp [encItemLine, spaces]

theorem jsonLoads_jsonDumps (files : List DocRecord) :
    jsonLoads (jsonDumps files) = some files := by
  cases files with
  | nil => rfl
  | cons r rs =>
    rw [jsonDumps]
    simp only [List.map_cons]
    rw [jsonLoads]
    simp only [List.cons_append, List.nil_append]
    rw [← List.map_cons encItemLine r rs]
    have hb : (r :: rs).length ≤
        (sepConcat [',', '\n'] ((r :: rs).map encItemLine) ++ ['\n', ']']).length := by
      have h1 := length_le_sepConcat encItemLine one_le_encItemLine_length (r :: rs)
      simp only [List.length_append]
      omega
    have hrt := parseSepList_rt parseItem encItemLine parseItem_enc
      [']'] (r :: rs)
      ((sepConcat [',', '\n'] ((r :: rs).map encItemLine) ++ ['\n', ']']).length)
      (by simp) hb []
    simp only [List.append_nil, List.singleton_append] at hrt
    rw [hrt]

/-! ## Lemmas: the aggregation loop -/

/-- The category-fold a single record applies to the categories dict. -/
def catFold (r : DocRecord) (m : List (String × Nat)) : List (String × Nat) :=
  (pySplit (recCategoriesRaw r) ',').foldl
    (fun m c => if c ≠ "" then bump m c else m) m

theorem countOf_bump (m : List (String × Nat)) (k k' : String) :
    countOf (bump m k) k' = countOf m k' + (if k' = k then 1 else 0) := by
  induction m with
  | nil =>
    by_cases h : k = k'
    · subst h; simp [bump, countOf]
    · have h' : ¬ (k' = k) := fun hh => h hh.symm
      simp [bump, countOf, h, h']
  | cons p m ih =>
    obtain ⟨k0, v⟩ := p
    by_cases h0 : k0 = k
    · subst h0
      by_cases h : k0 = k'
      · subst h; simp [bump, countOf]
      · have h' : ¬ (k' = k0) := fun hh => h hh.symm
        simp [bump, countOf, h, h']
    · by_cases h : k0 = k'
      · subst h
        have h' : ¬ (k0 = k) := h0
        simp [bump, countOf, h0, h']
      · simp [bump, countOf, h0, h, ih]

theorem countOf_foldTokens (toks : List String) (k : String) :
    ∀ m, countOf (toks.foldl (fun m c => if c ≠ "" then bump m c else m) m) k =
      countOf m k + (toks.filter (fun t => t ≠ "")).count k := by
  induction toks with
  | nil => intro m; simp
  | cons c toks ih =>
    intro m
    rw [List.foldl_cons]
    by_cases hc : c = ""
    · subst hc
      simp only [ne_eq, not_true_eq_false, if_false]
      rw [ih]
      simp [List.filter_cons]
    · simp only [ne_eq, hc, not_false_eq_true, if_true]
      rw [ih, countOf_bump]
      have hfc : (c :: toks).filter (fun t => t ≠ "") =
          c :: toks.filter (fun t => t ≠ "") := by
        simp [List.filter_cons, hc]
      rw [hfc, List.count_cons]
      by_cases hk : k = c
      · subst hk
        simp
        omega
      · have hck : ¬ (c = k) := fun hh => hk hh.symm
        simp only [beq_iff_eq, hk, hck, if_false]
        omega

/-- `tallyStep` fails exactly when `int()` raises on the record. -/
theorem tallyStep_eq_none_iff (t : Tally) (r : DocRecord) :
    tallyStep t r = none ↔ recConfidence r = none := by
  rw [tallyStep]
  cases hc : recConfidence r with
  | none => simp
  | some c =>
    dsimp only
    split_ifs <;> simp

/-- A successful `tallyStep` applies the category fold and bumps exactly
one confidence bucket. -/
theorem tallyStep_some_spec (t : Tally) (r : DocRecord) (t' : Tally)
    (h : tallyStep t r = some t') :
    t'.cats = catFold r t.cats ∧
      ∃ c, recConfidence r = some c ∧
        t'.high = t.high + (if 90 ≤ c then 1 else 0) ∧
        t'.medium = t.medium + (if 90 ≤ c then 0 else if 70 ≤ c then 1 else 0) ∧
        t'.low = t.low + (if 90 ≤ c then 0 else if 70 ≤ c then 0 else 1) := by
  rw [tallyStep] at h
  cases hc : recConfidence r with
  | none => rw [hc] at h; simp at h
  | some c =>
    rw [hc] at h
    dsimp only at h
    split_ifs at h with h90 h70
    · injection h with h
      subst h
      refine ⟨by simp [catFold], c, rfl, ?_, ?_, ?_⟩ <;> simp [h90]
    · injection h with h
      subst h
      refine ⟨by simp [catFold], c, rfl, ?_, ?_, ?_⟩ <;> simp [h90, h70]
    · injection h with h
      subst h
      refine ⟨by simp [catFold], c, rfl, ?_, ?_, ?_⟩ <;> simp [h90, h70]

theorem foldlM_tally_sum (files : List DocRecord) :
    ∀ (t t' : Tally), files.foldlM tallyStep t = some t' →
      t'.high + t'.medium + t'.low = t.high + t.medium + t.low + files.length := by
  induction files with
  | nil =>
    intro t t' h
    rw [List.foldlM_nil] at h
    cases h
    simp
  | cons r rs ih =>
    intro t t' h
    rw [List.foldlM_cons] at h
    cases hstep : tallyStep t r with
    | none => rw [hstep] at h; simp at h
    | some t1 =>
      rw [hstep] at h
      simp only [Option.bind_eq_bind, Option.some_bind] at h
      have hsum := ih t1 t' h
      obtain ⟨-, c, -, hh, hm, hl⟩ := tallyStep_some_spec t r t1 hstep
      rw [hsum, hh, hm, hl]
      simp only [List.length_cons]
      split_ifs <;> omega

theorem foldlM_tally_cats (files : List DocRecord) :
    ∀ (t t' : Tally), files.foldlM tallyStep t = some t' → ∀ (k : String),
      countOf t'.cats k =
        countOf t.cats k + (files.map (fun r => (catTokens r).count k)).sum := by
  induction files with
  | nil =>
    intro t t' h k
    rw [List.foldlM_nil] at h
    cases h
    simp
  | cons r rs ih =>
    intro t t' h k
    rw [List.foldlM_cons] at h
    cases hstep : tallyStep t r with
    | none => rw [hstep] at h; simp at h
    | some t1 =>
      rw [hstep] at h
      simp only [Option.bind_eq_bind, Option.some_bind] at h
      have hind := ih t1 t' h k
      obtain ⟨hcats, -⟩ := tallyStep_some_spec t r t1 hstep
      rw [hind, hcats, catFold]
      rw [countOf_foldTokens (pySplit (recCategoriesRaw r) ',') k t.cats]
      simp only [List.map_cons, List.sum_cons]
      rw [show ((pySplit (recCategoriesRaw r) ',').filter (fun t => t ≠ "")) =
        catTokens r from rfl]
      omega

theorem foldlM_tally_isSome (files : List DocRecord)
    (h : ∀ r ∈ files, (recConfidence r).isSome) :
    ∀ t : Tally, (files.foldlM tallyStep t).isSome := by
  induction files with
  | nil => intro t; simp [List.foldlM_nil]
  | cons r rs ih =>
    intro t
    rw [List.foldlM_cons]
    cases hstep : tallyStep t r with
    | none =>
      rw [tallyStep_eq_none_iff] at hstep
      have hr := h r (by simp)
      rw [hstep] at hr
      simp at hr
    | some t1 =>
      simp only [Option.bind_eq_bind, Option.some_bind]
      exact ih (fun x hx => h x (by simp [hx])) t1

/-! ## Lemmas: markdown rendering -/

theorem joinSep_cons_ne (sep a : String) (l : List String) (h : l ≠ []) :
    joinSep sep (a :: l) = a ++ sep ++ joinSep sep l := by
  cases l with
  | nil => exact absurd rfl h
  | cons b l' => rfl

theorem joinSep_firstThree (sep p1 p2 p3 : String) (l : List String)
    (h : l ≠ []) :
    joinSep sep (p1 :: p2 :: p3 :: l) =
      p1 ++ sep ++ p2 ++ sep ++ p3 ++ sep ++ joinSep sep l := by
  rw [joinSep_cons_ne _ _ _ (by simp), joinSep_cons_ne _ _ _ (by simp),
    joinSep_cons_ne _ _ _ h]
  simp [String.append_assoc]

theorem joinSep_append_four (sep : String) (l : List String) (c1 c2 c3 c4 : String) :
    ∃ pre, joinSep sep (l ++ [c1, c2, c3, c4]) =
      pre ++ (c1 ++ sep ++ c2 ++ sep ++ c3 ++ sep ++ c4) := by
  induction l with
  | nil => exact ⟨"", by simp [joinSep, String.append_assoc]⟩
  | cons a l ih =>
    obtain ⟨pre, hp⟩ := ih
    refine ⟨a ++ sep ++ pre, ?_⟩
    rw [List.cons_append, joinSep_cons_ne _ _ _ (by simp), hp]
    simp [String.append_assoc]

/-! ## Claims -/

/-- C1 (counterexample): the claim "the report aggregation function returns
a result and never fails ... an unparseable 'overall_confidence' is treated
as the integer 0" is false on the code: on a record whose
`overall_confidence` is the string `"abc"`, `int()` raises and the
aggregation produces no result. -/
theorem C1_counterexample :
    aggregate [⟨none, none, some [("overall_confidence", "abc")]⟩] = none := by
  decide

/-- C1 (amended): for every finite sequence of document records whose
present `overall_confidence` values all parse as Python integers, the
aggregation returns a result; a missing `overall_confidence` is read as the
integer 0 and a confidence of 0 is tallied as LOW; a missing or empty
`categories` contributes no category tokens.  (A present but unparseable
`overall_confidence` instead makes the aggregation raise, per the
counterexample.) -/
theorem C1_amended (files : List DocRecord)
    (h : ∀ r ∈ files, (recConfidence r).isSome) :
    (aggregate files).isSome ∧
    (∀ r : DocRecord, dictGet (r.properties.getD []) "overall_confidence" = none →
      recConfidence r = some 0) ∧
    (∀ (t : Tally) (r : DocRecord), recConfidence r = some 0 →
      ∃ t', tallyStep t r = some t' ∧ t'.low = t.low + 1 ∧
        t'.high = t.high ∧ t'.medium = t.medium) ∧
    (∀ r : DocRecord, dictGet (r.properties.getD []) "categories" = none ∨
      dictGet (r.properties.getD []) "categories" = some "" →
      catTokens r = []) := by
  refine ⟨foldlM_tally_isSome files h emptyTally, ?_, ?_, ?_⟩
  · intro r hr
    rw [recConfidence, hr]
  · intro t r h0
    rw [tallyStep, h0]
    dsimp only
    rw [if_neg (by omega), if_neg (by omega)]
    exact ⟨_, rfl, rfl, rfl, rfl⟩
  · intro r hr
    rcases hr with hr | hr <;>
      simp [catTokens, recCategoriesRaw, hr, pySplit, pySplitAux]

theorem C1_amended_witness :
    (aggregate [⟨none, none, some [("categories", "a,b")]⟩]).isSome :=
  (C1_amended [⟨none, none, some [("categories", "a,b")]⟩] (by decide)).1

/-- C2: for a record whose `overall_confidence` parses as the integer `c`,
the loop increments exactly the bucket given by the thresholds:
`c ≥ 90` HIGH, `70 ≤ c < 90` MEDIUM, `c < 70` LOW. -/
theorem C2_confidence_buckets (t : Tally) (r : DocRecord) (c : Int)
    (h : recConfidence r = some c) :
    ∃ t', tallyStep t r = some t' ∧
      t'.high = t.high + (if 90 ≤ c then 1 else 0) ∧
      t'.medium = t.medium + (if 90 ≤ c then 0 else if 70 ≤ c then 1 else 0) ∧
      t'.low = t.low + (if 90 ≤ c then 0 else if 70 ≤ c then 0 else 1) := by
  rw [tallyStep, h]
  dsimp only
  split_ifs with h90 h70
  · exact ⟨_, rfl, by simp, by simp, by simp⟩
  · exact ⟨_, rfl, by simp, by simp, by simp⟩
  · exact ⟨_, rfl, by simp, by simp, by simp⟩

theorem C2_witness :
    ∃ t', tallyStep emptyTally ⟨none, none, some [("overall_confidence", "90")]⟩ =
        some t' ∧
      t'.high = emptyTally.high + (if 90 ≤ (90 : Int) then 1 else 0) ∧
      t'.medium = emptyTally.medium +
        (if 90 ≤ (90 : Int) then 0 else if 70 ≤ (90 : Int) then 1 else 0) ∧
      t'.low = emptyTally.low +
        (if 90 ≤ (90 : Int) then 0 else if 70 ≤ (90 : Int) then 0 else 1) :=
  C2_confidence_buckets emptyTally _ 90 (by decide)

/-- C3: when the aggregation succeeds, the category tally maps each token
to its number of occurrences among the non-empty comma-split `categories`
tokens over all records (duplicates counted per occurrence, nothing
contributed by empty or missing `categories`). -/
theorem C3_category_tally (files : List DocRecord) (t : Tally)
    (h : aggregate files = some t) (cat : String) :
    countOf t.cats cat = (files.map (fun r => (catTokens r).count cat)).sum := by
  have h1 := foldlM_tally_cats files emptyTally t h cat
  simpa [emptyTally, countOf] using h1

theorem C3_witness :
    countOf (Tally.mk [("a", 2), ("b", 1)] 1 1 1).cats "a" =
      (([⟨none, none, some [("overall_confidence", "95"), ("categories", "a,b")]⟩,
         ⟨none, none, some [("overall_confidence", "70"), ("categories", "a")]⟩,
         ⟨none, none, some [("overall_confidence", "50"), ("categories", "")]⟩] :
        List DocRecord).map (fun r => (catTokens r).count "a")).sum :=
  C3_category_tally _ _ (by decide) "a"

/-- C4: when the aggregation succeeds, the rendered markdown report states
a total document count equal to the length of the input record list. -/
theorem C4_total_count (now : String) (files : List DocRecord)
    (h : (aggregate files).isSome) :
    ∃ tail, generateMarkdownReport now files =
      some ("# Document Classification Report" ++ "\n" ++
        ("\nGenerated: " ++ now) ++ "\n" ++
        ("\nTotal Documents: " ++ toString files.length) ++ "\n" ++ tail) := by
  obtain ⟨t, ht⟩ := Option.isSome_iff_exists.mp h
  rw [generateMarkdownReport, ht, Option.map_some']
  rw [renderMarkdown]
  simp only [List.cons_append, List.nil_append]
  rw [joinSep_firstThree "\n" _ _ _ _ (by simp)]
  exact ⟨_, rfl⟩

theorem C4_witness :
    ∃ tail, generateMarkdownReport "T"
        [⟨none, none, some [("overall_confidence", "95"), ("categories", "a,b")]⟩,
         ⟨none, none, none⟩] =
      some ("# Document Classification Report" ++ "\n" ++
        ("\nGenerated: " ++ "T") ++ "\n" ++
        ("\nTotal Documents: " ++
          toString ([⟨none, none, some [("overall_confidence", "95"), ("categories", "a,b")]⟩,
            ⟨none, none, none⟩] : List DocRecord).length) ++ "\n" ++ tail) :=
  C4_total_count "T" _ (by decide)

/-- C5: each successfully tallied record lands in exactly one confidence
bucket, and over a successful aggregation the three bucket counts sum to
the number of input records. -/
theorem C5_bucket_partition (files : List DocRecord) (t : Tally)
    (h : aggregate files = some t) :
    (∀ (t0 : Tally) (r : DocRecord) (t1 : Tally), tallyStep t0 r = some t1 →
      t1.high + t1.medium + t1.low = t0.high + t0.medium + t0.low + 1) ∧
    t.high + t.medium + t.low = files.length := by
  constructor
  · intro t0 r t1 hstep
    obtain ⟨-, c, -, hh, hm, hl⟩ := tallyStep_some_spec t0 r t1 hstep
    rw [hh, hm, hl]
    split_ifs <;> omega
  · have h1 := foldlM_tally_sum files emptyTally t h
    simpa [emptyTally] using h1

theorem C5_witness :
    (Tally.mk [("a", 2), ("b", 1)] 1 1 1).high +
        (Tally.mk [("a", 2), ("b", 1)] 1 1 1).medium +
        (Tally.mk [("a", 2), ("b", 1)] 1 1 1).low =
      ([⟨none, none, some [("overall_confidence", "95"), ("categories", "a,b")]⟩,
        ⟨none, none, some [("overall_confidence", "70"), ("categories", "a")]⟩,
        ⟨none, none, some [("overall_confidence", "50"), ("categories", "")]⟩] :
        List DocRecord).length :=
  (C5_bucket_partition _ _ (by decide)).2

/-- C6: when the aggregation succeeds, the markdown report ends with the
three confidence-level lines HIGH, MEDIUM, LOW in that fixed order with
their counts (even when a count is 0). -/
theorem C6_confidence_lines (now : String) (files : List DocRecord) (t : Tally)
    (h : aggregate files = some t) :
    ∃ pre, generateMarkdownReport now files =
      some (pre ++ ("\n### Confidence Levels" ++ "\n" ++
        ("- HIGH: " ++ toString t.high) ++ "\n" ++
        ("- MEDIUM: " ++ toString t.medium) ++ "\n" ++
        ("- LOW: " ++ toString t.low))) := by
  rw [generateMarkdownReport, h, Option.map_some']
  rw [renderMarkdown]
  obtain ⟨pre, hp⟩ := joinSep_append_four "\n"
    (["# Document Classification Report", "\nGenerated: " ++ now,
      "\nTotal Documents: " ++ toString files.length, "\n## Summary",
      "\n### Categories"] ++
      t.cats.map (fun p => "- " ++ p.1 ++ ": " ++ toString p.2))
    "\n### Confidence Levels" ("- HIGH: " ++ toString t.high)
    ("- MEDIUM: " ++ toString t.medium) ("- LOW: " ++ toString t.low)
  exact ⟨pre, by rw [hp]⟩

theorem C6_witness :
    ∃ pre, generateMarkdownReport "T" ([] : List DocRecord) =
      some (pre ++ ("\n### Confidence Levels" ++ "\n" ++
        ("- HIGH: " ++ toString (emptyTally.high)) ++ "\n" ++
        ("- MEDIUM: " ++ toString (emptyTally.medium)) ++ "\n" ++
        ("- LOW: " ++ toString (emptyTally.low)))) :=
  C6_confidence_lines "T" [] emptyTally (by decide)

/-- C7: in structured (`json`) mode the report content is exactly
`json.dumps` of the fetched record list (no tally injected), and
deserializing that content returns the record list unchanged. -/
theorem C7_json_roundtrip (now : String) (files : List DocRecord)
    (tok : Option String) :
    getReport .ready now .json (.ok ⟨files, tok⟩) =
      .ok ⟨jsonDumps files, now, "json"⟩ ∧
    jsonLoads (jsonDumps files) = some files :=
  ⟨rfl, jsonLoads_jsonDumps files⟩

/-- C8: when the collaborator's search raises, each endpoint uniformly
returns HTTP 500 carrying the collaborator's failure message (for
`/status`, whichever of the two searches fails first). -/
theorem C8_collaborator_failure (e now : String) (fmt : ReportFormat)
    (snd : Except String DriveListResponse) (okResp : DriveListResponse) :
    listDocuments .ready (.error e) = .httpError 500 e ∧
    getStatus .ready now (.error e) snd = .httpError 500 e ∧
    getStatus .ready now (.ok okResp) (.error e) = .httpError 500 e ∧
    getReport .ready now fmt (.error e) = .httpError 500 e := by
  refine ⟨rfl, rfl, rfl, ?_⟩
  cases fmt <;> rfl

/-- C9: with missing or unreadable credential material every endpoint
fails before any search outcome is consulted: a missing token file yields
the configuration HTTP 500 "Google OAuth token not found", an unreadable
one an exception escaping the handler — in both cases uniformly over any
collaborator outcome. -/
theorem C9_credential_failure (now : String) (fmt : ReportFormat)
    (s1 s2 : Except String DriveListResponse) :
    (listDocuments .missing s1 = .httpError 500 "Google OAuth token not found" ∧
     getStatus .missing now s1 s2 = .httpError 500 "Google OAuth token not found" ∧
     getReport .missing now fmt s1 = .httpError 500 "Google OAuth token not found") ∧
    (listDocuments .unreadable s1 = .unhandled ∧
     getStatus .unreadable now s1 s2 = .unhandled ∧
     getReport .unreadable now fmt s1 = .unhandled) :=
  ⟨⟨rfl, rfl, rfl⟩, ⟨rfl, rfl, rfl⟩⟩

/-- C10: `/status` reports `pending_count` as exactly the total count minus
the classified count (Python int subtraction, no clamping): it is negative
precisely when classified exceeds total, and total always equals
classified plus pending. -/
theorem C10_status_pending (now : String) (tr cr : DriveListResponse) :
    getStatus .ready now (.ok tr) (.ok cr) =
      .ok ⟨tr.files.length, cr.files.length,
           (tr.files.length : Int) - (cr.files.length : Int), now⟩ ∧
    (((tr.files.length : Int) - (cr.files.length : Int) < 0) ↔
      tr.files.length < cr.files.length) ∧
    (tr.files.length : Int) =
      (cr.files.length : Int) +
        ((tr.files.length : Int) - (cr.files.length : Int)) := by
  refine ⟨rfl, ?_, by ring⟩
  omega

end GDriveClassifier
